import Mathlib

/-!
Verification of the `crispso/secrets` CLI tool (Go) against its
natural-language specification.

The development shallowly embeds the Go sources:

* `src/kms/kms.go`      — crypto command gateway (`callKms`, `createKey`,
  `Encrypt`, `Decrypt`);
* `src/git/git.go`      — ignore-list manager (`AddToIgnored` and its
  helpers `isTracked` / `isIgnored` / `appendToFile`);
* `src/utils/utils.go`  — file classifier (`FindFiles`,
  `FindUnencryptedFiles`, `FindEncryptedFiles`, `IsIgnoredFolder`);
* `src/unnamed/part_000` (package `main`) — `isProjectRoot`,
  `findProjectRoot`, `getProjectRepo`, `getKeyName`, and `main`'s
  per-file encrypt/decrypt loops;
* `src/options/options.go` — the constants consumed by the above.

External collaborators (the `gcloud` and `git` binaries, `os.Stat`, the
Go regexp engine, the directory enumeration of `filepath.Walk`) are
modelled as explicit oracle parameters: a list or function of responses
standing for what the external process would answer.  Everything the
repository itself computes is translated directly from the source.
-/

namespace Secrets

/-! ## String primitives

Go `strings`/`regexp` operations used by the tool, modelled on `String.data`
(the list of characters).  All regular expressions appearing in the source
are anchored suffix patterns or a fixed-substring search, so they are
faithfully rendered by suffix / infix tests on the character list. -/

/-- Boolean suffix test: models Go `strings.HasSuffix` and the anchored
regular expressions `secret\.(yaml|yml)$`, `\.enc$`, … of the source
(an anchored alternative `a(b|c)$` matches exactly the strings ending in
`ab` or in `ac`). -/
def strEndsWith (s suf : String) : Bool := decide (suf.data <:+ s.data)

/-- Boolean substring test: models Go `strings.Contains`, used by
`callKms` to recognise a "key not found" diagnostic. -/
def strContains (s sub : String) : Bool := decide (sub.data <:+: s.data)

/-- Lower-casing, models Go `strings.ToLower` (character-wise lowering;
the organisation names compared by the tool are plain ASCII). -/
def strToLower (s : String) : String := ⟨s.data.map Char.toLower⟩

/-- Path concatenation with a single separator: models Go
`filepath.Join(dir, name)` for an already-clean directory path with no
trailing separator, which is the only way the tool uses it during a walk. -/
def pathJoin (dir name : String) : String := dir ++ "/" ++ name

/-- Rendering of an absolute path given by its components; `[]` is the
filesystem root `/`. -/
def pathStr (p : List String) : String := "/" ++ String.intercalate "/" p

/-! ## Crypto command gateway (`src/kms/kms.go`)

The `gcloud` binary is the external collaborator.  A `CmdResult` is the
outcome of one `utils.RunCommand` invocation as observed by the caller:
either a zero exit (`done`) or a nonzero exit together with the captured
standard-error text (`failed`).  A scenario is the list of outcomes the
service would produce for the successive invocations, consumed in order. -/

/-- Outcome of one external process invocation (`utils.RunCommand`):
`done` is a zero exit status, `failed stdErr` a nonzero status with the
captured standard-error text. -/
inductive CmdResult where
  | done
  | failed (stdErr : String)
deriving DecidableEq, Repr

/-- Error value produced by the gateway: `gcloudErr` models the
`gcloudError` struct of `kms.go` (it carries the raw standard-error
text); `exhausted` marks a scenario that provided too few responses for
the run, a case outside every theorem below. -/
inductive KmsErr where
  | gcloudErr (stdErr : String)
  | exhausted
deriving DecidableEq, Repr

/-- Trace entry: one invocation of the external key-management binary.
`kmsOp` is `gcloud kms <operation> --key <keyName> --plaintext-file
<plaintextFile> --ciphertext-file <ciphertextFile>`, `keyCreate` is
`gcloud kms keys create <keyName> --rotation-period 100d
--next-rotation-time +p100d …`. -/
inductive GcloudCall where
  | kmsOp (operation keyName plaintextFile ciphertextFile : String)
  | keyCreate (keyName : String)
deriving DecidableEq, Repr

/-- Diagnostic marker tested by `callKms`:
`strings.Contains(stdErr, "NOT_FOUND: ")`. -/
def notFoundMarker : String := "NOT_FOUND: "

/-- Translation of `kms.createKey`.  Returns the error (`none` on
success), the external invocations made, and the responses left for
subsequent commands.  With `options.DryRun` set it returns success
before invoking anything. -/
def createKey (dryRun : Bool) (keyName : String) (rs : List CmdResult) :
    Option KmsErr × List GcloudCall × List CmdResult :=
  if dryRun then (none, [], rs)
  else
    match rs with
    | [] => (some .exhausted, [.keyCreate keyName], [])
    | .done :: rest => (none, [.keyCreate keyName], rest)
    | .failed stdErr :: rest => (some (.gcloudErr stdErr), [.keyCreate keyName], rest)

/-- Translation of `kms.callKms`.  On a failed invocation whose
standard error contains `notFoundMarker` the source calls `createKey`
and then recursively re-runs `callKms` on the same arguments; the
`createKey` step is inlined here (its three cases are exactly
`createKey false keyName rest`) so that the recursion is structural on
the response list.  Result: the error (`none` = success) and the trace
of external invocations. -/
def callKms (dryRun : Bool) (operation keyName plaintextFile ciphertextFile : String)
    (rs : List CmdResult) : Option KmsErr × List GcloudCall :=
  if dryRun then (none, [])
  else
    match rs with
    | [] => (some .exhausted, [.kmsOp operation keyName plaintextFile ciphertextFile])
    | .done :: _ => (none, [.kmsOp operation keyName plaintextFile ciphertextFile])
    | .failed stdErr :: rest =>
      if strContains stdErr notFoundMarker then
        match rest with
        | [] =>
          (some .exhausted,
           [.kmsOp operation keyName plaintextFile ciphertextFile, .keyCreate keyName])
        | .failed createErr :: _ =>
          (some (.gcloudErr createErr),
           [.kmsOp operation keyName plaintextFile ciphertextFile, .keyCreate keyName])
        | .done :: rest2 =>
          let p := callKms dryRun operation keyName plaintextFile ciphertextFile rest2
          (p.1, .kmsOp operation keyName plaintextFile ciphertextFile ::
                .keyCreate keyName :: p.2)
      else (some (.gcloudErr stdErr), [.kmsOp operation keyName plaintextFile ciphertextFile])

/-- Translation of `kms.Encrypt`: `callKms("encrypt", keyName,
plaintextFile, plaintextFile+".enc")`. -/
def Encrypt (dryRun : Bool) (keyName plaintextFile : String) (rs : List CmdResult) :
    Option KmsErr × List GcloudCall :=
  callKms dryRun "encrypt" keyName plaintextFile (plaintextFile ++ ".enc") rs

/-- Translation of the regexp replacement
`regexp.MustCompile("\.enc$").ReplaceAllString(ciphertextFile, "")`:
the anchored pattern strips one trailing `.enc` when present and leaves
the string unchanged otherwise. -/
def stripEncSuffix (s : String) : String :=
  if strEndsWith s ".enc" then ⟨s.data.take (s.data.length - 4)⟩ else s

/-- Outcome of `kms.Decrypt`: either the process exits (via `os.Exit`)
with the given code after printing the given message, or the gateway
returns with the given error/trace pair. -/
inductive DecOutcome where
  | exited (code : Nat) (msg : String)
  | done (result : Option KmsErr × List GcloudCall)
deriving DecidableEq, Repr

/-- External invocations performed on the way to a `DecOutcome`; the
`exited` branch of `kms.Decrypt` is reached before any invocation. -/
def DecOutcome.calls : DecOutcome → List GcloudCall
  | .exited _ _ => []
  | .done r => r.2

/-- Translation of `kms.Decrypt`: strips the `.enc` suffix; if the name
is unchanged it prints `Not a .enc file: <path>` and exits with code 1,
otherwise it delegates to `callKms("decrypt", …)`. -/
def Decrypt (dryRun : Bool) (keyName ciphertextFile : String) (rs : List CmdResult) :
    DecOutcome :=
  let plaintextFile := stripEncSuffix ciphertextFile
  if plaintextFile = ciphertextFile then
    .exited 1 ("Not a .enc file: " ++ ciphertextFile)
  else
    .done (callKms dryRun "decrypt" keyName plaintextFile ciphertextFile rs)

/-! ## Ignore-list manager (`src/git/git.go`)

The `git` binary is the external collaborator.  `GitEnv.tracked` is the
answer of `git ls-files --error-unmatch <relativePath>` (the source
queries with the path made relative to the project root);
`GitEnv.checkIgnore` is the answer of `git check-ignore <filePath>`
(the source queries with the absolute path), which depends on the
current contents of the `.gitignore` file, passed as its first
argument.  The `.gitignore` file itself is the only mutable state:
a list of lines, to which `appendToFile` appends. -/

/-- Answers of the `git` collaborator for one project. -/
structure GitEnv where
  tracked : String → Bool
  checkIgnore : List String → String → Bool

/-- Result of one `git.AddToIgnored` call.  `trackedConflict` is the
`ErrFileAlreadyTracked` error; `alreadyIgnored` and `appended` are the
two `nil`-returning branches; `relFailed` is a `filepath.Rel` error. -/
inductive AddResult where
  | appended
  | alreadyIgnored
  | trackedConflict
  | relFailed
deriving DecidableEq, Repr

/-- Model of Go `filepath.Rel(root, file)` for the case the tool relies
on: `file` lies strictly below the directory `root` (both absolute and
clean), and the result is the remainder after `root ++ "/"`.  When
`root` is not an ancestor the model reports failure (Go would instead
build a `../`-path; no theorem below depends on that case). -/
def filepathRel (root file : String) : Option String :=
  if (root ++ "/").data.isPrefixOf file.data then
    some ⟨file.data.drop (root.data.length + 1)⟩
  else none

/-- Translation of `git.AddToIgnored`.  Returns the decision taken and
the resulting `.gitignore` contents.  The source computes the relative
path, then asks `isTracked` with the relative path (returning
`ErrFileAlreadyTracked` when tracked), then asks `isIgnored` with the
absolute path (returning `nil` without writing when ignored), and
otherwise appends the relative path as a new line to
`<projectRoot>/.gitignore`. -/
def addToIgnored (env : GitEnv) (gitignore : List String)
    (projectRoot fileToIgnore : String) : AddResult × List String :=
  match filepathRel projectRoot fileToIgnore with
  | none => (.relFailed, gitignore)
  | some relativePath =>
    if env.tracked relativePath then (.trackedConflict, gitignore)
    else if env.checkIgnore gitignore fileToIgnore then (.alreadyIgnored, gitignore)
    else (.appended, gitignore ++ [relativePath])

/-! ## Project root resolver (`src/unnamed/part_000`)

Absolute directory paths are modelled as their component lists (`[]` is
the filesystem root `/`), so that `filepath.Join(path, "..")` is
`List.dropLast` and `path == nextPath` holds exactly at the root.
`os.Stat` is the external collaborator: `stat p = none` models a stat
error, `stat p = some b` a successful stat with `IsDir() = b`. -/

/-- Translation of `isProjectRoot`: stats `<path>/.git` and requires it
to exist and be a directory. -/
def isProjectRoot (stat : List String → Option Bool) (path : List String) : Bool :=
  match stat (path ++ [".git"]) with
  | none => false
  | some isDir => isDir

/-- Translation of `findProjectRoot`.  The Go function returns the pair
`(path, err)`; the second component `true` models a non-`nil` error
(the "not in project" failure, on which the returned path is the
filesystem root reached by the search).  The source checks
`path == nextPath` before `isProjectRoot(path)`, so the root itself is
never examined for a marker. -/
def findProjectRoot (stat : List String → Option Bool) (path : List String) :
    List String × Bool :=
  if h : path = [] then ([], true)
  else if isProjectRoot stat path then (path, false)
  else findProjectRoot stat path.dropLast
termination_by path.length
decreasing_by
  simp only [List.length_dropLast]
  have h2 : 0 < path.length := List.length_pos.mpr h
  omega

/-- Number of recursive descents `findProjectRoot` performs from the
given starting directory (each descent is one `filepath.Join(path,"..")`
step of the source). -/
def findProjectRootSteps (stat : List String → Option Bool) (path : List String) : Nat :=
  if h : path = [] then 0
  else if isProjectRoot stat path then 0
  else findProjectRootSteps stat path.dropLast + 1
termination_by path.length
decreasing_by
  simp only [List.length_dropLast]
  have h2 : 0 < path.length := List.length_pos.mpr h
  omega

/-! ## Repository identity resolver (`src/unnamed/part_000`)

The collaborators are `git remote -v` (an `Except` standing for the
`(stdOut, err)` pair of `utils.RunCommand`) and the Go regexp engine
for the pattern `(?i)github.com:([^/]*)/([^/\.]*)\.git`, modelled as a
function returning the two capture groups of the leftmost match, or
`none` when `FindStringSubmatch` returns no match. -/

/-- Constant `options.ExpectedOrganization` of `src/options/options.go`. -/
def expectedOrganization : String := "crispso"

/-- Error cases of `getProjectRepo` (the precise `fmt.Errorf` texts are
irrelevant to every claim; the constructors record which of the three
`return`-with-error paths was taken, and the data interpolated). -/
inductive RepoErr where
  | remoteCmdFailed
  | orgMismatch (org project : String)
  | noRemoteMatch
deriving DecidableEq, Repr

/-- Translation of `getProjectRepo`: on a remote-query failure the error
is propagated; on a pattern match the organisation is compared
lower-cased against `options.ExpectedOrganization` and the project name
is returned on success; a mismatching organisation and a failed match
produce the two descriptive errors. -/
def getProjectRepo (remoteOut : Except Unit String)
    (matchRemote : String → Option (String × String)) : Except RepoErr String :=
  match remoteOut with
  | .error _ => .error .remoteCmdFailed
  | .ok stdOut =>
    match matchRemote stdOut with
    | some (org, project) =>
      if strToLower org = expectedOrganization then .ok project
      else .error (.orgMismatch org project)
    | none => .error .noRemoteMatch

/-- Model of Go `filepath.Base` on a component-list path: the last
component, or `/` for the filesystem root. -/
def filepathBase (p : List String) : String := (p.getLast?).getD "/"

/-- Translation of `getKeyName`: the project name from
`getProjectRepo` when it succeeds, the basename of the project root
otherwise.  It is total — no error escapes. -/
def getKeyName (projectRoot : List String) (remoteOut : Except Unit String)
    (matchRemote : String → Option (String × String)) : String :=
  match getProjectRepo remoteOut matchRemote with
  | .ok repo => repo
  | .error _ => filepathBase projectRoot

/-! ## File classifier (`src/utils/utils.go`)

The filesystem below the walk root is modelled as a finite tree whose
nodes carry the entry name; `filepath.Walk` enumerates the children of
a directory in a fixed (sorted) order, modelled by the order of the
`children` list.  The walk callback of `FindFiles` is translated
literally: an entry whose *name* is in the exclusion set yields
`filepath.SkipDir`; a non-directory whose *path* matches the pattern is
appended to the result.  The `SkipDir` propagation follows Go's
`filepath.walk`: a `SkipDir` from a directory's own visit or from one
of its file children aborts that directory's iteration and is swallowed
by the iteration one level up (because the aborted entry is a
directory); at the top level `filepath.Walk` converts `SkipDir` to
`nil`.  `filepath.Abs` is the identity on the already-absolute paths
the tool walks. -/

/-- Filesystem tree: a regular file or a directory with its entries in
enumeration order. -/
inductive FsTree where
  | file (name : String)
  | dir (name : String) (children : List FsTree)

/-- Entry name, i.e. `info.Name()` of the walked entry. -/
def FsTree.nameOf : FsTree → String
  | .file n => n
  | .dir n _ => n

/-- Predicate `info.IsDir()`. -/
def FsTree.isDirNode : FsTree → Bool
  | .file _ => false
  | .dir _ _ => true

/-- Exclusion set `ignoreFolders` of `utils.go`. -/
def ignoreFolders : List String := [".git", "node_modules", "mongo-data"]

/-- Translation of `utils.IsIgnoredFolder`: membership in the fixed
exclusion map. -/
def IsIgnoredFolder (name : String) : Bool := ignoreFolders.contains name

/-- Signal returned by a walk step: `normal` models a `nil` error from
the callback, `skipDir` models `filepath.SkipDir`. -/
inductive WalkSig where
  | normal
  | skipDir
deriving DecidableEq, Repr

mutual
/-- One `filepath.walk` call on the entry `t` at path `path`, threading
the accumulated `result` slice of `FindFiles`.  Returns the grown
accumulator and the signal the call reports to its caller. -/
def walkTree (matcher : String → Bool) (path : String) (t : FsTree)
    (acc : List String) : List String × WalkSig :=
  match t with
  | .file n =>
    if IsIgnoredFolder n then (acc, .skipDir)
    else if matcher path then (acc ++ [path], .normal)
    else (acc, .normal)
  | .dir n children =>
    if IsIgnoredFolder n then (acc, .skipDir)
    else walkChildren matcher path children acc
/-- Iteration of `filepath.walk` over the children of the directory at
`dirPath`: a `skipDir` coming back from a directory child is swallowed
and iteration continues; a `skipDir` coming back from a file child
aborts the iteration and is propagated to the caller. -/
def walkChildren (matcher : String → Bool) (dirPath : String) (cs : List FsTree)
    (acc : List String) : List String × WalkSig :=
  match cs with
  | [] => (acc, .normal)
  | c :: rest =>
    let r := walkTree matcher (pathJoin dirPath c.nameOf) c acc
    match r.2 with
    | .normal => walkChildren matcher dirPath rest r.1
    | .skipDir =>
      if c.isDirNode then walkChildren matcher dirPath rest r.1
      else (r.1, .skipDir)
end

/-- Translation of `utils.FindFiles(root, re)`: run the walk from the
root entry and return the accumulated result (walk-level errors are
only logged by the source, and the result is returned regardless). -/
def FindFiles (matcher : String → Bool) (rootPath : String) (t : FsTree) : List String :=
  (walkTree matcher rootPath t []).1

/-- Pattern `secret\.(yaml|yml)$` of `utils.FindUnencryptedFiles`,
applied by the callback to the full path of the entry. -/
def matchUnencrypted (path : String) : Bool :=
  strEndsWith path "secret.yaml" || strEndsWith path "secret.yml"

/-- Pattern `secret\.(yaml|yml)\.enc$` of `utils.FindEncryptedFiles`
in default mode. -/
def matchEncryptedDefault (path : String) : Bool :=
  strEndsWith path "secret.yaml.enc" || strEndsWith path "secret.yml.enc"

/-- Pattern `\.enc$` of `utils.FindEncryptedFiles` in open-all mode. -/
def matchOpenAll (path : String) : Bool := strEndsWith path ".enc"

/-- Translation of `utils.FindUnencryptedFiles`. -/
def FindUnencryptedFiles (rootPath : String) (t : FsTree) : List String :=
  FindFiles matchUnencrypted rootPath t

/-- Translation of `utils.FindEncryptedFiles`: the open-all flag
selects the unrestricted pattern. -/
def FindEncryptedFiles (openAll : Bool) (rootPath : String) (t : FsTree) : List String :=
  if openAll then FindFiles matchOpenAll rootPath t
  else FindFiles matchEncryptedDefault rootPath t

mutual
/-- Modelled from the spec's words for the classifier contract, for the
refinement comparison of claim C8: the files whose path matches the
pattern and that do not lie inside (nor are) a pruned directory, in
traversal order.  Directories named in the exclusion set contribute
nothing; files are kept purely by the pattern. -/
def specFiles (matcher : String → Bool) (path : String) : FsTree → List String
  | .file _ => if matcher path then [path] else []
  | .dir n children =>
    if IsIgnoredFolder n then []
    else specFilesList matcher path children
/-- Concatenation of `specFiles` over a directory's entries. -/
def specFilesList (matcher : String → Bool) (dirPath : String) :
    List FsTree → List String
  | [] => []
  | c :: rest =>
    specFiles matcher (pathJoin dirPath c.nameOf) c ++ specFilesList matcher dirPath rest
end

mutual
/-- Decidable side condition for claim C8: no regular file anywhere in
the tree bears a name from the exclusion set (such a file triggers the
skip of claim C10 and makes the walk diverge from the contract). -/
def goodTree : FsTree → Bool
  | .file n => !IsIgnoredFolder n
  | .dir _ children => goodList children
/-- Conjunction of `goodTree` over a list of entries. -/
def goodList : List FsTree → Bool
  | [] => true
  | c :: rest => goodTree c && goodList rest
end

/-! ## The `main` entry point (`src/unnamed/part_000`)

`MainCfg` packages the parsed options (`src/options/options.go` leaves
`options.ProjectRoot` and `options.Key` empty when the flags are
absent, modelled by `Option`) together with the oracles for every
external collaborator the run consults.  The run outcome is the exit
code, the warnings printed for tracked files, and the final
`.gitignore` contents. -/

/-- Constant `options.EncryptCmd`. -/
def EncryptCmd : String := "seal"

/-- Constant `options.DecryptCmd`. -/
def DecryptCmd : String := "open"

/-- Options and collaborator oracles of one CLI invocation.
`kmsResp f` is the response scenario the `gcloud` binary would play for
the crypto operation on target file `f`; `tree` is the directory tree
rooted at the resolved project root, used when no file arguments were
given. -/
structure MainCfg where
  rootFlag : Option (List String)
  keyFlag : Option String
  cmd : String
  argFiles : List String
  openAll : Bool
  dryRun : Bool
  stat : List String → Option Bool
  cwd : List String
  remoteOut : Except Unit String
  matchRemote : String → Option (String × String)
  tree : FsTree
  kmsResp : String → List CmdResult
  git : GitEnv
  gitignore0 : List String

/-- Project-root resolution of `main` (lines 89–91 of
`src/unnamed/part_000`): the `--root` flag when given, otherwise the
*path component* of `findProjectRoot(".")` — the error component is
discarded by `projectRoot, _ = findProjectRoot(".")`. -/
def mainRoot (cfg : MainCfg) : List String :=
  match cfg.rootFlag with
  | some r => r
  | none => (findProjectRoot cfg.stat cfg.cwd).1

/-- Key-name resolution of `main` (lines 93–95): the `--key` flag when
given, otherwise `getKeyName(projectRoot)`. -/
def mainKey (cfg : MainCfg) : String :=
  match cfg.keyFlag with
  | some k => k
  | none => getKeyName (mainRoot cfg) cfg.remoteOut cfg.matchRemote

/-- Encrypt loop of `main` (lines 110–119): for each file, exit 1 on a
gateway error; on `ErrFileAlreadyTracked` print a warning and continue;
exit 1 on any other `AddToIgnored` error; exit 0 after the loop.
Returns `(exit code, warned files, final gitignore)`. -/
def encryptLoop (dryRun : Bool) (key rootPath : String)
    (kmsResp : String → List CmdResult) (env : GitEnv) (files : List String)
    (gitignore warnings : List String) : Nat × List String × List String :=
  match files with
  | [] => (0, warnings, gitignore)
  | f :: rest =>
    match (Encrypt dryRun key f (kmsResp f)).1 with
    | some _ => (1, warnings, gitignore)
    | none =>
      match addToIgnored env gitignore rootPath f with
      | (.trackedConflict, g) => encryptLoop dryRun key rootPath kmsResp env rest g (warnings ++ [f])
      | (.alreadyIgnored, g) => encryptLoop dryRun key rootPath kmsResp env rest g warnings
      | (.appended, g) => encryptLoop dryRun key rootPath kmsResp env rest g warnings
      | (.relFailed, g) => (1, warnings, g)

/-- Decrypt loop of `main` (lines 126–130): `kms.Decrypt` may itself
exit the process (code 1 on a non-`.enc` target); a returned gateway
error exits with code 1; exit 0 after the loop. -/
def decryptLoop (dryRun : Bool) (key : String) (kmsResp : String → List CmdResult)
    (files : List String) : Nat :=
  match files with
  | [] => 0
  | f :: rest =>
    match Decrypt dryRun key f (kmsResp f) with
    | .exited code _ => code
    | .done (some _, _) => 1
    | .done (none, _) => decryptLoop dryRun key kmsResp rest

/-- Translation of `main` (lines 86–135), from project-root resolution
onwards: resolve root and key, dispatch on the subcommand, defaulting
the file list to the classifier's output when no files were given, and
exit 1 on an unknown subcommand.  Returns `(exit code, warned files,
final gitignore)`. -/
def mainModel (cfg : MainCfg) : Nat × List String × List String :=
  let root := mainRoot cfg
  let key := mainKey cfg
  if cfg.cmd = EncryptCmd then
    let files := if cfg.argFiles.isEmpty then FindUnencryptedFiles (pathStr root) cfg.tree
                 else cfg.argFiles
    encryptLoop cfg.dryRun key (pathStr root) cfg.kmsResp cfg.git files cfg.gitignore0 []
  else if cfg.cmd = DecryptCmd then
    let files := if cfg.argFiles.isEmpty then
                   FindEncryptedFiles cfg.openAll (pathStr root) cfg.tree
                 else cfg.argFiles
    (decryptLoop cfg.dryRun key cfg.kmsResp files, [], cfg.gitignore0)
  else (1, [], cfg.gitignore0)

/-- Scenario for claim C9: no `--root` override, decrypt subcommand, no
file arguments, and a filesystem without any version-control marker
(`stat` fails everywhere), so that the project root is unresolvable. -/
def noRootCfg : MainCfg where
  rootFlag := none
  keyFlag := none
  cmd := "open"
  argFiles := []
  openAll := false
  dryRun := false
  stat := fun _ => none
  cwd := ["home", "u"]
  remoteOut := .error ()
  matchRemote := fun _ => none
  tree := .dir "/" []
  kmsResp := fun _ => []
  git := ⟨fun _ => false, fun _ _ => false⟩
  gitignore0 := []

/-! ## Supporting lemmas -/

/-- Stripping a present `.enc` suffix shortens the name, so the
equality test in `Decrypt` fails exactly on the suffix-free names. -/
theorem stripEncSuffix_ne_of_endsWith (s : String) (h : strEndsWith s ".enc" = true) :
    stripEncSuffix s ≠ s := by
  have hsuf : ".enc".data <:+ s.data := of_decide_eq_true h
  have hlen : 4 ≤ s.data.length := by
    simpa using hsuf.length_le
  intro heq
  rw [stripEncSuffix, if_pos h] at heq
  have hdata : s.data.take (s.data.length - 4) = s.data := congrArg String.data heq
  have h1 : (s.data.take (s.data.length - 4)).length = s.data.length - 4 := by
    rw [List.length_take]
    omega
  have h2 := congrArg List.length hdata
  rw [h1] at h2
  omega

/-! ## Theorems for the claims -/

/-- Claim C4: for every input path that does not end in the ciphertext
suffix `.enc`, `Decrypt` fails fast — it prints that the path is not a
`.enc` file and exits with code 1 — before any external invocation
(the trace of external calls is empty), for every dry-run setting, key
and response scenario. -/
theorem claim_C4_decrypt_fails_fast (dryRun : Bool) (keyName ciphertextFile : String)
    (rs : List CmdResult) (h : strEndsWith ciphertextFile ".enc" = false) :
    Decrypt dryRun keyName ciphertextFile rs =
      .exited 1 ("Not a .enc file: " ++ ciphertextFile) ∧
    (Decrypt dryRun keyName ciphertextFile rs).calls = [] := by
  have hs : stripEncSuffix ciphertextFile = ciphertextFile := by
    rw [stripEncSuffix, if_neg]
    simp [h]
  constructor
  · rw [Decrypt]
    simp [hs]
  · rw [Decrypt]
    simp [hs, DecOutcome.calls]

/-- Witness for C4 at the concrete non-ciphertext path `foo.txt`. -/
theorem claim_C4_witness :
    strEndsWith "foo.txt" ".enc" = false ∧
    Decrypt false "mykey" "foo.txt" [.done] = .exited 1 "Not a .enc file: foo.txt" ∧
    (Decrypt false "mykey" "foo.txt" [.done]).calls = [] := by
  refine ⟨by decide, ?_⟩
  exact claim_C4_decrypt_fails_fast false "mykey" "foo.txt" [.done] (by decide)

/-- Claim C3 counterexample: with dry-run enabled, the `Decrypt` entry
point applied to the key/file combination `("k", "foo")` does not
report success — it exits the process with code 1, because the
ciphertext-suffix check precedes the dry-run short-circuit.  This
refutes "every entry point … reports success, for every key and file
combination". -/
theorem claim_C3_counterexample :
    Decrypt true "k" "foo" [] = .exited 1 "Not a .enc file: foo" := by
  decide

/-- Claim C3 as amended: with dry-run enabled no entry point performs
an external invocation, and `Encrypt`, key creation, and `Decrypt` on
any path carrying the `.enc` suffix report success — but `Decrypt` on a
suffix-free path still exits with code 1 even in dry-run mode. -/
theorem claim_C3_amended :
    (∀ (keyName plaintextFile : String) (rs : List CmdResult),
      Encrypt true keyName plaintextFile rs = (none, [])) ∧
    (∀ (keyName : String) (rs : List CmdResult),
      createKey true keyName rs = (none, [], rs)) ∧
    (∀ (keyName ciphertextFile : String) (rs : List CmdResult),
      strEndsWith ciphertextFile ".enc" = true →
      Decrypt true keyName ciphertextFile rs = .done (none, [])) := by
  refine ⟨fun k f rs => by simp only [Encrypt]; rw [callKms.eq_def]; simp,
          fun k rs => by rw [createKey.eq_def]; simp,
          fun k f rs h => ?_⟩
  simp only [Decrypt]
  rw [if_neg (stripEncSuffix_ne_of_endsWith f h)]
  rw [callKms.eq_def]
  simp

/-- Witness for the amended C3 at a scenario that would, without
dry-run, trigger key creation (a `NOT_FOUND` response is queued). -/
theorem claim_C3_witness :
    Encrypt true "k" "a/secret.yaml" [.failed "NOT_FOUND: key k"] = (none, []) ∧
    createKey true "k" [.failed "boom"] = (none, [], [.failed "boom"]) ∧
    (strEndsWith "a/secret.yaml.enc" ".enc" = true ∧
     Decrypt true "k" "a/secret.yaml.enc" [.failed "NOT_FOUND: key k"] = .done (none, [])) := by
  refine ⟨claim_C3_amended.1 _ _ _, claim_C3_amended.2.1 _ _, by decide,
          claim_C3_amended.2.2 _ _ _ (by decide)⟩

/-- Claim C2 counterexample: a scenario in which the first `encrypt`
invocation and the retried invocation both report `NOT_FOUND`.  The
claim demands exactly one key-creation call, exactly one retry, and a
fatal error after the second `NOT_FOUND`; the code instead provisions
the key a second time, retries a second time, and succeeds — two
`keyCreate` calls and three operation attempts with no fatal error. -/
theorem claim_C2_counterexample :
    callKms false "encrypt" "k" "f" "f.enc"
      [.failed "ERROR: NOT_FOUND: key k", .done,
       .failed "ERROR: NOT_FOUND: key k", .done, .done] =
    (none, [.kmsOp "encrypt" "k" "f" "f.enc", .keyCreate "k",
            .kmsOp "encrypt" "k" "f" "f.enc", .keyCreate "k",
            .kmsOp "encrypt" "k" "f" "f.enc"]) := by
  decide

/-- Claim C2 as amended: on a first failure carrying the `NOT_FOUND`
marker the gateway makes one key-creation call and one retry, and a
retried failure *without* the marker (or a failed key creation) is
fatal with the raw diagnostic text; but a retried failure that again
carries the marker triggers another key-creation and another retry —
the recursion repeats while failures carry the marker and key creation
succeeds, rather than failing after the second occurrence. -/
theorem claim_C2_amended :
    (∀ (op k pt ct s : String) (rest : List CmdResult),
      strContains s notFoundMarker = false →
      callKms false op k pt ct (.failed s :: rest) =
        (some (.gcloudErr s), [.kmsOp op k pt ct])) ∧
    (∀ (op k pt ct s t : String) (rest : List CmdResult),
      strContains s notFoundMarker = true →
      callKms false op k pt ct (.failed s :: .failed t :: rest) =
        (some (.gcloudErr t), [.kmsOp op k pt ct, .keyCreate k])) ∧
    (∀ (op k pt ct s : String) (rest : List CmdResult),
      strContains s notFoundMarker = true →
      callKms false op k pt ct (.failed s :: .done :: rest) =
        ((callKms false op k pt ct rest).1,
         .kmsOp op k pt ct :: .keyCreate k :: (callKms false op k pt ct rest).2)) ∧
    (∀ (op k pt ct s : String) (rest : List CmdResult),
      strContains s notFoundMarker = true →
      callKms false op k pt ct (.failed s :: .done :: .done :: rest) =
        (none, [.kmsOp op k pt ct, .keyCreate k, .kmsOp op k pt ct])) ∧
    (∀ (op k pt ct s t : String) (rest : List CmdResult),
      strContains s notFoundMarker = true → strContains t notFoundMarker = false →
      callKms false op k pt ct (.failed s :: .done :: .failed t :: rest) =
        (some (.gcloudErr t), [.kmsOp op k pt ct, .keyCreate k, .kmsOp op k pt ct])) := by
  refine ⟨fun op k pt ct s rest h => by rw [callKms.eq_def]; simp [h],
          fun op k pt ct s t rest h => by rw [callKms.eq_def]; simp [h],
          fun op k pt ct s rest h => by rw [callKms.eq_def]; simp [h],
          fun op k pt ct s rest h => by
            rw [callKms.eq_def]
            simp only [h, Bool.false_eq_true, reduceIte]
            rw [callKms.eq_def]
            simp,
          fun op k pt ct s t rest h h2 => by
            rw [callKms.eq_def]
            simp only [h, Bool.false_eq_true, reduceIte]
            rw [callKms.eq_def]
            simp [h2]⟩

/-- Witness for the amended C2 at concrete diagnostics. -/
theorem claim_C2_witness :
    (strContains "ERROR: NOT_FOUND: key k" notFoundMarker = true ∧
     strContains "permission denied" notFoundMarker = false) ∧
    callKms false "decrypt" "k" "f" "f.enc" [.failed "permission denied"] =
      (some (.gcloudErr "permission denied"), [.kmsOp "decrypt" "k" "f" "f.enc"]) ∧
    callKms false "decrypt" "k" "f" "f.enc"
        [.failed "ERROR: NOT_FOUND: key k", .done, .failed "permission denied"] =
      (some (.gcloudErr "permission denied"),
       [.kmsOp "decrypt" "k" "f" "f.enc", .keyCreate "k", .kmsOp "decrypt" "k" "f" "f.enc"]) := by
  refine ⟨⟨by decide, by decide⟩,
          claim_C2_amended.1 "decrypt" "k" "f" "f.enc" _ _ (by decide),
          claim_C2_amended.2.2.2.2 "decrypt" "k" "f" "f.enc" _ _ _ (by decide) (by decide)⟩

/-- Claim C1: whenever the project-relative path of the file is tracked
by the VCS index — the ignore oracle `env.checkIgnore` is arbitrary, so
in particular the file may also match an ignore rule —
`AddToIgnored` returns the `ErrFileAlreadyTracked` conflict and leaves
the ignore-list contents unchanged; and the encrypt batch loop, on such
a file whose gateway call succeeded, records a warning for exactly that
file and continues with the remaining files instead of exiting. -/
theorem claim_C1_tracked_conflict (env : GitEnv) (gitignore : List String)
    (projectRoot fileToIgnore relativePath : String)
    (hrel : filepathRel projectRoot fileToIgnore = some relativePath)
    (htracked : env.tracked relativePath = true) :
    addToIgnored env gitignore projectRoot fileToIgnore = (.trackedConflict, gitignore) ∧
    (∀ (dryRun : Bool) (key : String) (kmsResp : String → List CmdResult)
       (rest gitignore0 warnings : List String),
      (Encrypt dryRun key fileToIgnore (kmsResp fileToIgnore)).1 = none →
      encryptLoop dryRun key projectRoot kmsResp env (fileToIgnore :: rest)
          gitignore0 warnings =
        encryptLoop dryRun key projectRoot kmsResp env rest
          gitignore0 (warnings ++ [fileToIgnore])) := by
  have hadd : ∀ g : List String,
      addToIgnored env g projectRoot fileToIgnore = (.trackedConflict, g) := by
    intro g
    simp [addToIgnored, hrel, htracked]
  refine ⟨hadd gitignore, fun dryRun key kmsResp rest g0 w henc => ?_⟩
  rw [encryptLoop]
  simp [henc, hadd g0]

/-- Witness for C1: a tracked file that simultaneously matches an
ignore rule (`checkIgnore` answers `true`), in a dry run. -/
theorem claim_C1_witness :
    addToIgnored ⟨fun _ => true, fun _ _ => true⟩ ["keep"] "/r" "/r/a/secret.yaml" =
      (.trackedConflict, ["keep"]) ∧
    encryptLoop true "key" "/r" (fun _ => []) ⟨fun _ => true, fun _ _ => true⟩
        ["/r/a/secret.yaml", "/r/b/secret.yaml"] ["keep"] [] =
      encryptLoop true "key" "/r" (fun _ => []) ⟨fun _ => true, fun _ _ => true⟩
        ["/r/b/secret.yaml"] ["keep"] ["/r/a/secret.yaml"] := by
  have h := claim_C1_tracked_conflict ⟨fun _ => true, fun _ _ => true⟩ ["keep"]
    "/r" "/r/a/secret.yaml" "a/secret.yaml" (by decide) (by decide)
  exact ⟨h.1, by simpa using h.2 true "key" (fun _ => []) ["/r/b/secret.yaml"] ["keep"] [] (by decide)⟩

/-- Claim C5: an untracked file that already matches an ignore rule is
a no-op success that leaves the ignore list unchanged; consequently —
for a `git` collaborator that reports a path as ignored once its
relative path is a line of the ignore list (`hfaithful`) — two
invocations on an untracked, unignored file append the relative path
exactly once, and a third invocation appends nothing. -/
theorem claim_C5_idempotent (env : GitEnv) (gitignore : List String)
    (projectRoot fileToIgnore relativePath : String)
    (hrel : filepathRel projectRoot fileToIgnore = some relativePath)
    (huntracked : env.tracked relativePath = false)
    (hunignored : env.checkIgnore gitignore fileToIgnore = false)
    (hfaithful : ∀ g : List String, relativePath ∈ g →
      env.checkIgnore g fileToIgnore = true) :
    (∀ g : List String, env.checkIgnore g fileToIgnore = true →
      addToIgnored env g projectRoot fileToIgnore = (.alreadyIgnored, g)) ∧
    addToIgnored env gitignore projectRoot fileToIgnore =
      (.appended, gitignore ++ [relativePath]) ∧
    (gitignore ++ [relativePath]).count relativePath = gitignore.count relativePath + 1 ∧
    addToIgnored env (gitignore ++ [relativePath]) projectRoot fileToIgnore =
      (.alreadyIgnored, gitignore ++ [relativePath]) := by
  have hig : env.checkIgnore (gitignore ++ [relativePath]) fileToIgnore = true :=
    hfaithful _ (by simp)
  refine ⟨fun g hg => by simp [addToIgnored, hrel, huntracked, hg],
          by simp [addToIgnored, hrel, huntracked, hunignored],
          by simp,
          by simp [addToIgnored, hrel, huntracked, hig]⟩

/-- Witness for C5: a concrete collaborator whose ignore check is
exactly "the relative path `a/secret.yaml` is a line of the ignore
list", starting from an empty ignore list. -/
theorem claim_C5_witness :
    addToIgnored ⟨fun _ => false, fun g _ => decide ("a/secret.yaml" ∈ g)⟩ []
        "/r" "/r/a/secret.yaml" = (.appended, ["a/secret.yaml"]) ∧
    addToIgnored ⟨fun _ => false, fun g _ => decide ("a/secret.yaml" ∈ g)⟩ ["a/secret.yaml"]
        "/r" "/r/a/secret.yaml" = (.alreadyIgnored, ["a/secret.yaml"]) ∧
    ((["a/secret.yaml"] : List String).count "a/secret.yaml" = 1) := by
  have h := claim_C5_idempotent ⟨fun _ => false, fun g _ => decide ("a/secret.yaml" ∈ g)⟩ []
    "/r" "/r/a/secret.yaml" "a/secret.yaml" (by decide) (by decide) (by decide)
    (fun g hg => decide_eq_true hg)
  refine ⟨h.2.1, by simpa using h.2.2.2, by decide⟩

/-- Claim C6: key-name resolution is total and matches the source's
case split — the project identifier when the remote text matches the
`host:org/project.git` pattern with the expected organisation
(case-insensitively), and the basename of the project root whenever the
remote query fails, the pattern does not match, or the organisation
differs. -/
theorem claim_C6_keyname :
    (∀ (projectRoot : List String) (stdOut org project : String)
       (matchRemote : String → Option (String × String)),
      matchRemote stdOut = some (org, project) →
      strToLower org = expectedOrganization →
      getKeyName projectRoot (.ok stdOut) matchRemote = project) ∧
    (∀ (projectRoot : List String) (stdOut org project : String)
       (matchRemote : String → Option (String × String)),
      matchRemote stdOut = some (org, project) →
      strToLower org ≠ expectedOrganization →
      getKeyName projectRoot (.ok stdOut) matchRemote = filepathBase projectRoot) ∧
    (∀ (projectRoot : List String) (stdOut : String)
       (matchRemote : String → Option (String × String)),
      matchRemote stdOut = none →
      getKeyName projectRoot (.ok stdOut) matchRemote = filepathBase projectRoot) ∧
    (∀ (projectRoot : List String) (e : Unit)
       (matchRemote : String → Option (String × String)),
      getKeyName projectRoot (.error e) matchRemote = filepathBase projectRoot) := by
  refine ⟨fun root s org project m hm horg => by
            simp [getKeyName, getProjectRepo, hm, horg],
          fun root s org project m hm horg => by
            simp [getKeyName, getProjectRepo, hm, horg],
          fun root s m hm => by simp [getKeyName, getProjectRepo, hm],
          fun root e m => by simp [getKeyName, getProjectRepo]⟩

/-- Witness for C6: a remote whose organisation matches up to case
yields the project name; a failed remote query and a mismatching
organisation both fall back to the basename of the project root. -/
theorem claim_C6_witness :
    getKeyName ["home", "myrepo"] (.ok "origin git@github.com:Crispso/payroll.git (fetch)")
        (fun s => if s = "origin git@github.com:Crispso/payroll.git (fetch)" then
          some ("Crispso", "payroll") else none) = "payroll" ∧
    getKeyName ["home", "myrepo"] (.error ())
        (fun _ => none) = "myrepo" ∧
    getKeyName ["home", "myrepo"] (.ok "origin git@github.com:other/payroll.git (fetch)")
        (fun _ => some ("other", "payroll")) = "myrepo" := by
  refine ⟨claim_C6_keyname.1 ["home", "myrepo"]
            "origin git@github.com:Crispso/payroll.git (fetch)" "Crispso" "payroll"
            (fun s => if s = "origin git@github.com:Crispso/payroll.git (fetch)" then
              some ("Crispso", "payroll") else none) (by decide) (by decide),
          ?_, ?_⟩
  · have h := claim_C6_keyname.2.2.2 ["home", "myrepo"] () (fun _ => none)
    simpa [filepathBase] using h
  · have h := claim_C6_keyname.2.1 ["home", "myrepo"]
      "origin git@github.com:other/payroll.git (fetch)" "other" "payroll"
      (fun _ => some ("other", "payroll")) rfl (by decide)
    simpa [filepathBase] using h

mutual
/-- On a tree without excluded-named regular files the walk extends the
accumulator by exactly the contract's selection, signalling `skipDir`
exactly when the entry itself is an excluded-named directory. -/
theorem walkTree_spec (m : String → Bool) (p : String) (t : FsTree) (acc : List String)
    (h : goodTree t = true) :
    walkTree m p t acc =
      (acc ++ specFiles m p t,
       if IsIgnoredFolder t.nameOf then WalkSig.skipDir else WalkSig.normal) := by
  match t with
  | .file n =>
    have hn : IsIgnoredFolder n = false := by
      simpa [goodTree] using h
    by_cases hm : m p <;> simp [walkTree, specFiles, FsTree.nameOf, hn, hm]
  | .dir n cs =>
    have hcs : goodList cs = true := by simpa [goodTree] using h
    by_cases hn : IsIgnoredFolder n
    · simp [walkTree, specFiles, FsTree.nameOf, hn]
    · simp [walkTree, specFiles, FsTree.nameOf, hn,
            walkChildren_spec m p cs acc hcs]
/-- On a list of entries without excluded-named regular files the
child iteration extends the accumulator by the contract's selection of
every child and reports no signal. -/
theorem walkChildren_spec (m : String → Bool) (d : String) (cs : List FsTree)
    (acc : List String) (h : goodList cs = true) :
    walkChildren m d cs acc = (acc ++ specFilesList m d cs, WalkSig.normal) := by
  match cs with
  | [] => simp [walkChildren, specFilesList]
  | c :: rest =>
    have hc : goodTree c = true := by
      have := h
      simp [goodList] at this
      exact this.1
    have hrest : goodList rest = true := by
      have := h
      simp [goodList] at this
      exact this.2
    match c with
    | .file n =>
      have hn : IsIgnoredFolder n = false := by simpa [goodTree] using hc
      by_cases hm : m (pathJoin d n) <;>
        simp [walkChildren, walkTree, specFilesList, specFiles, FsTree.nameOf, hn, hm,
              walkChildren_spec m d rest _ hrest, List.append_assoc]
    | .dir n cs2 =>
      by_cases hn : IsIgnoredFolder n
      · simp [walkChildren, walkTree, specFilesList, specFiles, FsTree.nameOf,
              FsTree.isDirNode, hn, walkChildren_spec m d rest _ hrest]
      · have hw := walkTree_spec m (pathJoin d n) (.dir n cs2) acc hc
        simp [FsTree.nameOf, hn] at hw
        simp [walkChildren, hw, specFilesList, FsTree.nameOf,
              walkChildren_spec m d rest _ hrest, List.append_assoc]
end

/-- Claim C8 counterexample: in a directory containing a regular file
named `node_modules` followed by the matching file `zsecret.yaml`, the
classifier returns nothing, while the contract — exactly the
pattern-matching files outside pruned directories, here computed by
`specFiles` — selects `/root/zsecret.yaml`. -/
theorem claim_C8_counterexample :
    FindUnencryptedFiles "/root" (.dir "root" [.file "node_modules", .file "zsecret.yaml"]) =
      [] ∧
    specFiles matchUnencrypted "/root"
        (.dir "root" [.file "node_modules", .file "zsecret.yaml"]) =
      ["/root/zsecret.yaml"] := by
  exact ⟨by decide, by decide⟩

/-- Claim C8 as amended: on every tree in which no *regular file*
bears an excluded name (`.git`, `node_modules`, `mongo-data`), the
classifier returns exactly the files selected by the contract
`specFiles` — path ends in `secret.yaml`/`secret.yml` for Unencrypted,
in `secret.yaml.enc`/`secret.yml.enc` for default Encrypted, in `.enc`
for open-all Encrypted — with excluded-named directories pruned
entirely at any depth. -/
theorem claim_C8_amended (rootPath : String) (t : FsTree) (h : goodTree t = true) :
    FindUnencryptedFiles rootPath t = specFiles matchUnencrypted rootPath t ∧
    FindEncryptedFiles false rootPath t = specFiles matchEncryptedDefault rootPath t ∧
    FindEncryptedFiles true rootPath t = specFiles matchOpenAll rootPath t := by
  refine ⟨?_, ?_, ?_⟩ <;>
    simp [FindUnencryptedFiles, FindEncryptedFiles, FindFiles,
          walkTree_spec _ rootPath t [] h]

/-- Witness for the amended C8 on the specification's own test vector:
`a/secret.yaml`, `a/secret.yml.enc`, `a/other.yaml`,
`node_modules/secret.yaml`, plus a lone `x.enc`. -/
theorem claim_C8_witness :
    goodTree (.dir "r" [.dir "a" [.file "other.yaml", .file "secret.yaml",
                                  .file "secret.yml.enc"],
                        .file "x.enc",
                        .dir "node_modules" [.file "secret.yaml"]]) = true ∧
    (FindUnencryptedFiles "/r"
        (.dir "r" [.dir "a" [.file "other.yaml", .file "secret.yaml",
                             .file "secret.yml.enc"],
                   .file "x.enc",
                   .dir "node_modules" [.file "secret.yaml"]]) =
      specFiles matchUnencrypted "/r"
        (.dir "r" [.dir "a" [.file "other.yaml", .file "secret.yaml",
                             .file "secret.yml.enc"],
                   .file "x.enc",
                   .dir "node_modules" [.file "secret.yaml"]])) ∧
    specFiles matchUnencrypted "/r"
        (.dir "r" [.dir "a" [.file "other.yaml", .file "secret.yaml",
                             .file "secret.yml.enc"],
                   .file "x.enc",
                   .dir "node_modules" [.file "secret.yaml"]]) = ["/r/a/secret.yaml"] ∧
    specFiles matchEncryptedDefault "/r"
        (.dir "r" [.dir "a" [.file "other.yaml", .file "secret.yaml",
                             .file "secret.yml.enc"],
                   .file "x.enc",
                   .dir "node_modules" [.file "secret.yaml"]]) = ["/r/a/secret.yml.enc"] ∧
    specFiles matchOpenAll "/r"
        (.dir "r" [.dir "a" [.file "other.yaml", .file "secret.yaml",
                             .file "secret.yml.enc"],
                   .file "x.enc",
                   .dir "node_modules" [.file "secret.yaml"]]) =
      ["/r/a/secret.yml.enc", "/r/x.enc"] := by
  refine ⟨by decide, ?_, by decide, by decide, by decide⟩
  exact (claim_C8_amended "/r" _ (by decide)).1

/-- Claim C10: the excluded-name check is applied to every walked
entry: a regular file with an excluded name makes the callback return
the skip-directory signal, which aborts the iteration over the
remaining entries of its parent directory (they are never visited and
the accumulator is returned as-is); concretely, a directory holding a
regular file `mongo-data` followed by `zsecret.yaml` yields no result
even though `zsecret.yaml` matches and lies outside every excluded
directory. -/
theorem claim_C10_file_skip :
    (∀ (m : String → Bool) (d name : String) (acc : List String),
      IsIgnoredFolder name = true →
      walkTree m (pathJoin d name) (.file name) acc = (acc, .skipDir)) ∧
    (∀ (m : String → Bool) (d name : String) (rest : List FsTree) (acc : List String),
      IsIgnoredFolder name = true →
      walkChildren m d (.file name :: rest) acc = (acc, .skipDir)) ∧
    FindUnencryptedFiles "/r" (.dir "r" [.file "mongo-data", .file "zsecret.yaml"]) = [] ∧
    matchUnencrypted (pathJoin "/r" "zsecret.yaml") = true := by
  refine ⟨fun m d name acc h => by simp [walkTree, h],
          fun m d name rest acc h => by
            simp [walkChildren, walkTree, FsTree.nameOf, FsTree.isDirNode, h],
          by decide, by decide⟩

/-- Witness for C10 with the excluded name `.git` as a regular file. -/
theorem claim_C10_witness :
    IsIgnoredFolder ".git" = true ∧
    walkTree (fun _ => true) (pathJoin "/p" ".git") (.file ".git") ["seen"] =
      (["seen"], .skipDir) ∧
    walkChildren (fun _ => true) "/p" [.file ".git", .file "zsecret.yaml"] ["seen"] =
      (["seen"], .skipDir) := by
  exact ⟨by decide,
         claim_C10_file_skip.1 (fun _ => true) "/p" ".git" ["seen"] (by decide),
         claim_C10_file_skip.2.1 (fun _ => true) "/p" ".git" [.file "zsecret.yaml"]
           ["seen"] (by decide)⟩

/-- Unfolding of `findProjectRoot` at the filesystem root. -/
theorem findProjectRoot_nil (stat : List String → Option Bool) :
    findProjectRoot stat [] = ([], true) := by
  rw [findProjectRoot.eq_def]
  simp

/-- Unfolding of `findProjectRoot` one step below an ancestor chain. -/
theorem findProjectRoot_concat (stat : List String → Option Bool)
    (xs : List String) (x : String) :
    findProjectRoot stat (xs ++ [x]) =
      if isProjectRoot stat (xs ++ [x]) then (xs ++ [x], false)
      else findProjectRoot stat xs := by
  rw [findProjectRoot.eq_def]
  simp [List.dropLast_concat]

/-- Unfolding of `findProjectRootSteps` at the filesystem root. -/
theorem findProjectRootSteps_nil (stat : List String → Option Bool) :
    findProjectRootSteps stat [] = 0 := by
  rw [findProjectRootSteps.eq_def]
  simp

/-- Unfolding of `findProjectRootSteps` one step below an ancestor chain. -/
theorem findProjectRootSteps_concat (stat : List String → Option Bool)
    (xs : List String) (x : String) :
    findProjectRootSteps stat (xs ++ [x]) =
      if isProjectRoot stat (xs ++ [x]) then 0
      else findProjectRootSteps stat xs + 1 := by
  rw [findProjectRootSteps.eq_def]
  simp [List.dropLast_concat]

/-- Claim C7 counterexample: with the version-control marker present
exactly at the filesystem root (`stat [".git"] = some true`), the
search started at `/a` reports the "not in project" failure instead of
returning the nearest marker-containing ancestor `/` — the source tests
`path == nextPath` before testing for the marker, so the filesystem
root is never examined. -/
theorem claim_C7_counterexample :
    findProjectRoot (fun q => if q = [".git"] then some true else none) ["a"] =
      ([], true) ∧
    isProjectRoot (fun q => if q = [".git"] then some true else none) [] = true := by
  constructor
  · simp [findProjectRoot, isProjectRoot]
  · decide

/-- Claim C7 as amended: `findProjectRoot` terminates in at most as
many recursive descents as the starting directory's depth; on failure
(`.2 = true`) the returned path is the filesystem root and no nonempty
ancestor (prefix) of the start carries the marker — the filesystem root
itself is never examined; on success it returns the longest
marker-carrying nonempty prefix of the start, i.e. the nearest
marker-containing ancestor strictly below the filesystem root. -/
theorem claim_C7_amended (stat : List String → Option Bool) (p : List String) :
    findProjectRootSteps stat p ≤ p.length ∧
    ((findProjectRoot stat p).2 = true →
      (findProjectRoot stat p).1 = [] ∧
      ∀ q, q <+: p → q ≠ [] → isProjectRoot stat q = false) ∧
    ((findProjectRoot stat p).2 = false →
      (findProjectRoot stat p).1 ≠ [] ∧ (findProjectRoot stat p).1 <+: p ∧
      isProjectRoot stat (findProjectRoot stat p).1 = true ∧
      ∀ q, q <+: p → (findProjectRoot stat p).1.length < q.length →
        isProjectRoot stat q = false) := by
  induction p using List.reverseRecOn with
  | nil =>
    refine ⟨by simp [findProjectRootSteps_nil], ?_, ?_⟩
    · intro _
      refine ⟨by simp [findProjectRoot_nil], fun q hq hne => ?_⟩
      exact absurd (List.prefix_nil.mp hq) hne
    · intro hf
      rw [findProjectRoot_nil] at hf
      simp at hf
  | append_singleton xs x ih =>
    by_cases hr : isProjectRoot stat (xs ++ [x]) = true
    · rw [findProjectRoot_concat, if_pos hr]
      refine ⟨by rw [findProjectRootSteps_concat, if_pos hr]; simp, ?_, ?_⟩
      · intro hf
        simp at hf
      · intro _
        refine ⟨by simp, List.prefix_refl _, hr, fun q hq hlen => ?_⟩
        exact absurd hq.length_le (not_le.mpr (by simpa using hlen))
    · have hr2 : isProjectRoot stat (xs ++ [x]) = false := by
        simpa using hr
      rw [findProjectRoot_concat, if_neg (by simp [hr2])]
      refine ⟨?_, ?_, ?_⟩
      · rw [findProjectRootSteps_concat, if_neg (by simp [hr2])]
        have := ih.1
        simp only [List.length_append, List.length_singleton]
        omega
      · intro hf
        obtain ⟨h1, h2⟩ := ih.2.1 hf
        refine ⟨h1, fun q hq hne => ?_⟩
        rcases List.prefix_concat_iff.mp hq with hq2 | hq2
        · rw [hq2]
          exact hr2
        · exact h2 q hq2 hne
      · intro hf
        obtain ⟨h1, h2, h3, h4⟩ := ih.2.2 hf
        refine ⟨h1, h2.trans (List.prefix_append xs [x]), h3, fun q hq hlen => ?_⟩
        rcases List.prefix_concat_iff.mp hq with hq2 | hq2
        · rw [hq2]
          exact hr2
        · exact h4 q hq2 hlen

/-- Witness for the amended C7: a marker at `/a` is found from `/a/b`
in one descent, and the failure case of `noRootCfg` searches to the
root. -/
theorem claim_C7_witness :
    findProjectRoot (fun q => if q = ["a", ".git"] then some true else none) ["a", "b"] =
      (["a"], false) ∧
    findProjectRootSteps (fun q => if q = ["a", ".git"] then some true else none)
      ["a", "b"] ≤ 2 ∧
    isProjectRoot (fun q => if q = ["a", ".git"] then some true else none) ["a"] = true := by
  refine ⟨by simp [findProjectRoot, isProjectRoot], ?_, by decide⟩
  have h := (claim_C7_amended
    (fun q => if q = ["a", ".git"] then some true else none) ["a", "b"]).1
  simpa using h

/-- Claim C9 counterexample: in the `noRootCfg` scenario the project
root is unresolvable (`findProjectRoot` reports the failure) and no
`--root` override is supplied, yet the modelled `main` run finishes
with exit code 0 — `main` discards the error component of
`findProjectRoot` and continues with the returned filesystem-root
path, so the claimed exit with code 1 never happens. -/
theorem claim_C9_counterexample :
    (findProjectRoot noRootCfg.stat noRootCfg.cwd).2 = true ∧
    mainModel noRootCfg = (0, [], []) := by
  constructor
  · simp [noRootCfg, findProjectRoot, isProjectRoot]
  · simp [mainModel, noRootCfg, mainRoot, mainKey, findProjectRoot, isProjectRoot,
          getKeyName, getProjectRepo, filepathBase, FindEncryptedFiles, FindFiles,
          walkTree, walkChildren, IsIgnoredFolder, ignoreFolders, FsTree.nameOf,
          decryptLoop, pathStr, EncryptCmd, DecryptCmd, expectedOrganization]

/-- Claim C9 as amended: when no `--root` override is supplied, `main`
adopts the path component of `findProjectRoot` unconditionally — the
error component is discarded by `projectRoot, _ = findProjectRoot(".")`
— so an unresolvable project root does not exit the process with code
1; the `noRootCfg` run completes with exit code 0. -/
theorem claim_C9_amended :
    (∀ cfg : MainCfg,
      mainRoot { cfg with rootFlag := none } = (findProjectRoot cfg.stat cfg.cwd).1) ∧
    (findProjectRoot noRootCfg.stat noRootCfg.cwd).2 = true ∧
    (mainModel noRootCfg).1 = 0 := by
  refine ⟨fun cfg => by simp [mainRoot], ?_, ?_⟩
  · simp [noRootCfg, findProjectRoot, isProjectRoot]
  · simp [mainModel, noRootCfg, mainRoot, mainKey, findProjectRoot, isProjectRoot,
          getKeyName, getProjectRepo, filepathBase, FindEncryptedFiles, FindFiles,
          walkTree, walkChildren, IsIgnoredFolder, ignoreFolders, FsTree.nameOf,
          decryptLoop, pathStr, EncryptCmd, DecryptCmd, expectedOrganization]

end Secrets
